import Mathlib

/-!
Verification of the Data Vault storage and versioning engine
(src/Data_Vault.py, class DataVault) against its specification.

The engine keeps an in-memory catalog (a Python dict mapping file name to
a vault entry), a content store (files under files/<name>/v<k>/<name>
inside the vault root), and a persisted metadata document (metadata.json).

The shallow embedding below models:
  - the Python dict as an insertion-ordered association list with unique
    keys (`dictSet` updates in place or appends, `dictDel` removes the
    entry, `alookup` finds the first binding — exactly the observable
    behaviour of a Python dict on its operations);
  - file contents as lists of byte values (`List Nat`);
  - the external filesystem seen by `add_file` as an association list
    from path to `FSEntry` (absent / existing-but-unreadable / readable
    with content);
  - `hashlib.sha256` by a full executable SHA-256 implementation;
  - uncaught Python exceptions as the `Except.error` branch carrying the
    in-memory state at the moment the exception propagates.
-/

set_option maxRecDepth 20000

namespace DataVault

/-! ### Definitions -/

/-- Association-list lookup: first binding for the key, as in a Python
dict (which holds at most one binding per key). -/
def alookup {β : Type} : List (String × β) → String → Option β
  | [], _ => none
  | p :: rest, k => if p.1 = k then some p.2 else alookup rest k

/-- Python dict assignment `d[k] = v`: replaces the value in place when
the key is present (keeping its position in insertion order), otherwise
appends the new binding at the end. -/
def dictSet {β : Type} : List (String × β) → String → β → List (String × β)
  | [], k, v => [(k, v)]
  | p :: rest, k, v => if p.1 = k then (k, v) :: rest else p :: dictSet rest k v

/-- Python dict deletion `del d[k]`: removes the binding for the key
(the first one; a dict has at most one). -/
def dictDel {β : Type} : List (String × β) → String → List (String × β)
  | [], _ => []
  | p :: rest, k => if p.1 = k then rest else p :: dictDel rest k

/-! ## SHA-256

`calculate_hash` (src/Data_Vault.py lines 66-71) feeds the file through
`hashlib.sha256` in 4096-byte chunks and returns the first 16 characters
of the hex digest.  The digest itself is implemented below in full
(FIPS 180-4), over lists of byte values. -/

/-- 32-bit modular addition. -/
def add32 (a b : Nat) : Nat := (a + b) % 4294967296

/-- Right rotation of a 32-bit word. -/
def rotr (n x : Nat) : Nat := ((x >>> n) ||| (x <<< (32 - n))) % 4294967296

/-- Small sigma-0 message-schedule function. -/
def ssig0 (x : Nat) : Nat := rotr 7 x ^^^ rotr 18 x ^^^ (x >>> 3)

/-- Small sigma-1 message-schedule function. -/
def ssig1 (x : Nat) : Nat := rotr 17 x ^^^ rotr 19 x ^^^ (x >>> 10)

/-- Big sigma-0 round function. -/
def bsig0 (x : Nat) : Nat := rotr 2 x ^^^ rotr 13 x ^^^ rotr 22 x

/-- Big sigma-1 round function. -/
def bsig1 (x : Nat) : Nat := rotr 6 x ^^^ rotr 11 x ^^^ rotr 25 x

/-- Choice function (bitwise complement taken within 32 bits). -/
def chF (x y z : Nat) : Nat := (x &&& y) ^^^ ((x ^^^ 4294967295) &&& z)

/-- Majority function. -/
def majF (x y z : Nat) : Nat := (x &&& y) ^^^ (x &&& z) ^^^ (y &&& z)

/-- The 64 SHA-256 round constants, in decimal. -/
def sha256K : List Nat :=
  [1116352408, 1899447441, 3049323471, 3921009573, 961987163, 1508970993,
   2453635748, 2870763221, 3624381080, 310598401, 607225278, 1426881987,
   1925078388, 2162078206, 2614888103, 3248222580, 3835390401, 4022224774,
   264347078, 604807628, 770255983, 1249150122, 1555081692, 1996064986,
   2554220882, 2821834349, 2952996808, 3210313671, 3336571891, 3584528711,
   113926993, 338241895, 666307205, 773529912, 1294757372, 1396182291,
   1695183700, 1986661051, 2177026350, 2456956037, 2730485921, 2820302411,
   3259730800, 3345764771, 3516065817, 3600352804, 4094571909, 275423344,
   430227734, 506948616, 659060556, 883997877, 958139571, 1322822218,
   1537002063, 1747873779, 1955562222, 2024104815, 2227730452, 2361852424,
   2428436474, 2756734187, 3204031479, 3329325298]

/-- The SHA-256 initial hash value, in decimal. -/
def sha256H0 : List Nat :=
  [1779033703, 3144134277, 1013904242, 2773480762,
   1359893119, 2600822924, 528734635, 1541459225]

/-- Next message-schedule word from the window of the previous 16 words. -/
def nextW (ws : List Nat) : Nat :=
  add32 (add32 (ssig1 (ws.getD 14 0)) (ws.getD 9 0)) (add32 (ssig0 (ws.getD 1 0)) (ws.getD 0 0))

/-- Extend the message schedule by `n` further words. -/
def extendW : Nat → List Nat → List Nat
  | 0, _ => []
  | n + 1, ws =>
    let w := nextW ws
    w :: extendW n (ws.drop 1 ++ [w])

/-- Full 64-word message schedule of a 16-word block. -/
def schedule (block : List Nat) : List Nat := block ++ extendW 48 block

/-- Working state of the compression function. -/
structure S8 where
  a : Nat
  b : Nat
  c : Nat
  d : Nat
  e : Nat
  f : Nat
  g : Nat
  h : Nat
deriving DecidableEq

/-- One SHA-256 round, given the round constant and schedule word. -/
def roundF (s : S8) (kw : Nat × Nat) : S8 :=
  let t1 := add32 s.h (add32 (bsig1 s.e) (add32 (chF s.e s.f s.g) (add32 kw.1 kw.2)))
  let t2 := add32 (bsig0 s.a) (majF s.a s.b s.c)
  ⟨add32 t1 t2, s.a, s.b, s.c, add32 s.d t1, s.e, s.f, s.g⟩

/-- SHA-256 compression of one 16-word block into the chaining value. -/
def compress (hv : List Nat) (block : List Nat) : List Nat :=
  let s0 : S8 := ⟨hv.getD 0 0, hv.getD 1 0, hv.getD 2 0, hv.getD 3 0,
                  hv.getD 4 0, hv.getD 5 0, hv.getD 6 0, hv.getD 7 0⟩
  let s := (List.zip sha256K (schedule block)).foldl roundF s0
  [add32 s0.a s.a, add32 s0.b s.b, add32 s0.c s.c, add32 s0.d s.d,
   add32 s0.e s.e, add32 s0.f s.f, add32 s0.g s.g, add32 s0.h s.h]

/-- Group bytes into big-endian 32-bit words. -/
def bytesToWords : List Nat → List Nat
  | b0 :: b1 :: b2 :: b3 :: rest =>
    ((b0 <<< 24) + (b1 <<< 16) + (b2 <<< 8) + b3) :: bytesToWords rest
  | _ => []

/-- Group words into 16-word blocks. -/
def wordsToBlocks : List Nat → List (List Nat)
  | w0 :: w1 :: w2 :: w3 :: w4 :: w5 :: w6 :: w7 ::
    w8 :: w9 :: w10 :: w11 :: w12 :: w13 :: w14 :: w15 :: rest =>
    [w0, w1, w2, w3, w4, w5, w6, w7, w8, w9, w10, w11, w12, w13, w14, w15] :: wordsToBlocks rest
  | _ => []

/-- Big-endian 8-byte encoding of the message bit length. -/
def lenBytes (n : Nat) : List Nat :=
  [(n >>> 56) % 256, (n >>> 48) % 256, (n >>> 40) % 256, (n >>> 32) % 256,
   (n >>> 24) % 256, (n >>> 16) % 256, (n >>> 8) % 256, n % 256]

/-- SHA-256 padding: a 0x80 byte, zeros to 56 mod 64, then the bit length. -/
def padMsg (msg : List Nat) : List Nat :=
  let len := msg.length
  let zeros := (64 - ((len + 9) % 64)) % 64
  msg ++ 128 :: List.replicate zeros 0 ++ lenBytes (8 * len)

/-- Iterated compression over the padded message blocks. -/
def processBlocks (hv : List Nat) : List (List Nat) → List Nat
  | [] => hv
  | b :: bs => processBlocks (compress hv b) bs

/-- SHA-256 digest of a byte list, as eight 32-bit words. -/
def sha256words (msg : List Nat) : List Nat :=
  processBlocks sha256H0 (wordsToBlocks (bytesToWords (padMsg msg)))

/-- Big-endian bytes of one 32-bit word. -/
def wordBytes (w : Nat) : List Nat :=
  [(w >>> 24) % 256, (w >>> 16) % 256, (w >>> 8) % 256, w % 256]

/-- Lowercase hexadecimal digit character. -/
def hexDigit (n : Nat) : Char := if n < 10 then Char.ofNat (48 + n) else Char.ofNat (87 + n)

/-- SHA-256 hex digest (the value of `hashlib.sha256(msg).hexdigest()`). -/
def sha256hex (msg : List Nat) : String :=
  String.mk ((sha256words msg).foldr (fun w acc => wordBytes w ++ acc) []
    |>.foldr (fun b acc => hexDigit (b / 16) :: hexDigit (b % 16) :: acc) [])

/-- Byte values of an ASCII string, used to build concrete file contents. -/
def strBytes (s : String) : List Nat := s.data.map Char.toNat

/-- Successive reads of at most 4096 bytes, stopping at the empty read:
the chunk sequence produced by `iter(lambda: f.read(4096), b"")` at
src/Data_Vault.py line 69.  The first argument is fuel, instantiated with
the file length (each read consumes at least one byte). -/
def chunksGo : Nat → List Nat → List (List Nat)
  | _, [] => []
  | 0, _ => []
  | fuel + 1, l => l.take 4096 :: chunksGo fuel (l.drop 4096)

/-- The 4096-byte chunks of a file. -/
def chunks4096 (l : List Nat) : List (List Nat) := chunksGo l.length l

/-- `calculate_hash` (src/Data_Vault.py lines 66-71): reads the file in
4096-byte chunks, feeds each chunk to the sha256 object (whose digest,
per the hashlib contract, is the digest of the concatenation of all
bytes fed to it), and returns the first 16 characters of the hex
digest. -/
def calculate_hash (content : List Nat) : String :=
  let absorbed := (chunks4096 content).foldl (fun acc c => acc ++ c) []
  (sha256hex absorbed).take 16

/-! ## Data model

The catalog schema of the metadata document (spec section 6), exactly as
`add_file` builds it: one `VaultEntry` per file name, holding the list of
`VersionRecord`s and the current-version index. -/

/-- One stored version: the dict built at src/Data_Vault.py lines 52-58. -/
structure VersionRecord where
  version : Nat
  timestamp : String
  size : Nat
  hash : String
  path : String
deriving DecidableEq

/-- The per-file catalog value created at src/Data_Vault.py lines 39-43.
`current_version` is an integer as in Python (the sentinel returned for an
unknown file is -1). -/
structure VaultEntry where
  name : String
  versions : List VersionRecord
  current_version : Int
deriving DecidableEq

/-- A file as the external filesystem presents it to `add_file`:
either readable with some content, or existing but unreadable (an open
raises `PermissionError`).  An absent path is simply missing from the
filesystem map. -/
inductive FSEntry where
  | unreadable
  | file (content : List Nat)
deriving DecidableEq

/-- The external filesystem: absolute path to file state. -/
def FS : Type := List (String × FSEntry)

/-- The whole observable state of a `DataVault` instance:
`metadata` is the in-memory catalog dict, `store` maps each storage
locator (path relative to the vault root) to the stored bytes, and
`disk` is the persisted metadata document as last written by
`save_metadata`. -/
structure VaultState where
  metadata : List (String × VaultEntry)
  store : List (String × List Nat)
  disk : List (String × VaultEntry)
deriving DecidableEq

/-- A vault with nothing added and nothing persisted. -/
def emptyVault : VaultState := ⟨[], [], []⟩

/-- Split a character list at every slash. -/
def splitSlash : List Char → List (List Char)
  | [] => [[]]
  | c :: rest =>
    match splitSlash rest with
    | [] => [[]]
    | g :: gs => if c = '/' then [] :: g :: gs else (c :: g) :: gs

/-- `pathlib.Path(p).name`: the last path component, with empty and `.`
components dropped (as `pathlib` drops them when parsing). -/
def basename (p : String) : String :=
  let comps := (splitSlash p.data).map (fun cs => String.mk cs)
  (comps.filter (fun s => s ≠ "" ∧ s ≠ ".")).getLastD ""

/-- Python list indexing `l[i]` on an `int` index: non-negative indexes
from the front, negative from the back, out of range raises
(`none`). -/
def pyIndex {α : Type} (l : List α) (i : Int) : Option α :=
  if 0 ≤ i then l.get? i.toNat
  else if 0 ≤ i + l.length then l.get? (i + l.length).toNat else none

/-- The storage locator `files/<name>/v<num>/<name>` built at
src/Data_Vault.py lines 46-49 (relative to the vault root, line 57). -/
def locator (file_name : String) (version_num : Nat) : String :=
  "files/" ++ file_name ++ "/v" ++ toString version_num ++ "/" ++ file_name

/-! ## Operations (src/Data_Vault.py lines 29-122)

Each mutating operation ends by persisting the catalog
(`save_metadata`, lines 25-27), modelled by setting `disk` to the new
catalog.  An uncaught Python exception is `Except.error st` carrying the
in-memory state at the moment it propagates. -/

/-- `add_file` (lines 29-64).  `copyFails` is the environment oracle for
the `shutil.copy2` call at line 50 raising an I/O fault.  Order of
effects, as in the source: existence check (line 31); `calculate_hash`
opens the source (line 35, raises on an unreadable file before any
catalog mutation); a fresh empty entry is put in the catalog for an
unseen name (lines 38-43); the content is copied (line 50, fault point);
the version record is appended, the current index set and the catalog
persisted (lines 60-62). -/
def add_file (copyFails : Bool) (fs : FS) (st : VaultState)
    (source_path timestamp : String) : Except VaultState (VaultState × Bool × String) :=
  match alookup fs source_path with
  | none => Except.ok (st, false, "File does not exist")
  | some FSEntry.unreadable => Except.error st
  | some (FSEntry.file content) =>
    let file_name := basename source_path
    let file_hash := calculate_hash content
    let md0 := match alookup st.metadata file_name with
      | some _ => st.metadata
      | none => dictSet st.metadata file_name
          { name := file_name, versions := [], current_version := 0 }
    let entry := (alookup md0 file_name).getD
      { name := file_name, versions := [], current_version := 0 }
    let version_num := entry.versions.length + 1
    let dest := locator file_name version_num
    if copyFails then
      Except.error { st with metadata := md0 }
    else
      let store := dictSet st.store dest content
      let vinfo : VersionRecord :=
        { version := version_num, timestamp := timestamp, size := content.length,
          hash := file_hash, path := dest }
      let entry' : VaultEntry :=
        { entry with versions := entry.versions ++ [vinfo],
                     current_version := (version_num : Int) - 1 }
      let md := dictSet md0 file_name entry'
      Except.ok ({ metadata := md, store := store, disk := md }, true,
        "File \x27" ++ file_name ++ "\x27 added as version " ++ toString version_num)

/-- `get_file_list` (lines 73-74): the catalog keys in insertion order. -/
def get_file_list (st : VaultState) : List String := st.metadata.map Prod.fst

/-- `get_versions` (lines 76-79). -/
def get_versions (st : VaultState) (file_name : String) : List VersionRecord :=
  match alookup st.metadata file_name with
  | some entry => entry.versions
  | none => []

/-- `get_current_version_index` (lines 81-84). -/
def get_current_version_index (st : VaultState) (file_name : String) : Int :=
  match alookup st.metadata file_name with
  | some entry => entry.current_version
  | none => -1

/-- `rollback_version` (lines 86-96). -/
def rollback_version (st : VaultState) (file_name : String) (version_index : Int) :
    VaultState × Bool × String :=
  match alookup st.metadata file_name with
  | none => (st, false, "File not found")
  | some entry =>
    if version_index < 0 ∨ (entry.versions.length : Int) ≤ version_index then
      (st, false, "Invalid version index")
    else
      let entry' := { entry with current_version := version_index }
      let md := dictSet st.metadata file_name entry'
      ({ metadata := md, store := st.store, disk := md }, true,
        "Rolled back to version " ++ toString (version_index + 1))

/-- `export_file` (lines 98-110).  The result carries the outcome pair
and the bytes written to the destination (`none` when nothing is
written); `Except.error` is the uncaught `IndexError` from
`versions[current_version]` at line 103. -/
def export_file (st : VaultState) (file_name dest_path : String) :
    Except Unit (Bool × String × Option (List Nat)) :=
  match alookup st.metadata file_name with
  | none => Except.ok (false, "File not found", none)
  | some entry =>
    match pyIndex entry.versions entry.current_version with
    | none => Except.error ()
    | some vinfo =>
      match alookup st.store vinfo.path with
      | none => Except.ok (false, "Source file not found", none)
      | some content =>
        Except.ok (true, "File exported to " ++ dest_path, some content)

/-- `delete_file` (lines 112-122): `shutil.rmtree` on
`files/<file_name>` removes every stored payload under that subtree,
then the catalog entry is removed and the catalog persisted. -/
def delete_file (st : VaultState) (file_name : String) : VaultState × Bool × String :=
  match alookup st.metadata file_name with
  | none => (st, false, "File not found")
  | some _ =>
    let pfx := "files/" ++ file_name ++ "/"
    let store := st.store.filter (fun q => !(pfx.data.isPrefixOf q.1.data))
    let md := dictDel st.metadata file_name
    ({ metadata := md, store := store, disk := md }, true,
      "File \x27" ++ file_name ++ "\x27 deleted")

/-! ## Symbolic execution of `add_file` -/

/-- Success message of `add_file` (src/Data_Vault.py line 64). -/
def addMsg (nm : String) (n : Nat) : String :=
  "File \x27" ++ nm ++ "\x27 added as version " ++ toString n

/-- The catalog entry after `add_file` appends a version to `entry`
(src/Data_Vault.py lines 52-61). -/
def afterEntry (nm : String) (entry : VaultEntry) (ts : String) (B : List Nat) : VaultEntry :=
  { entry with
    versions := entry.versions ++
      [⟨entry.versions.length + 1, ts, B.length, calculate_hash B,
        locator nm (entry.versions.length + 1)⟩],
    current_version := ((entry.versions.length + 1 : Nat) : Int) - 1 }

/-- The version record appended by a successful `add_file` on state `st`
for the file name `nm`, timestamp `ts` and content `B`, described through
the observable `get_versions`. -/
def newRecord (st : VaultState) (nm ts : String) (B : List Nat) : VersionRecord :=
  { version := (get_versions st nm).length + 1, timestamp := ts, size := B.length,
    hash := calculate_hash B, path := locator nm ((get_versions st nm).length + 1) }

/-! ## Iterated `add_file` calls -/

/-- The inputs of one `add_file` call: the filesystem it sees, the source
path and the timestamp `datetime.now()` yields. -/
structure AddCall where
  fs : FS
  path : String
  ts : String

/-- Run a sequence of `add_file` calls; an uncaught exception aborts the
sequence with the state it left behind. -/
def runAdds : VaultState → List AddCall → VaultState
  | st, [] => st
  | st, c :: rest =>
    match add_file false c.fs st c.path c.ts with
    | Except.ok (st', _, _) => runAdds st' rest
    | Except.error st' => st'

/-- A small filesystem holding one readable file `/src/report.txt` with
content `"hello"`. -/
def fsW : FS := [("/src/report.txt", FSEntry.file (strBytes "hello"))]

/-- Two `add_file` calls for `/src/report.txt`. -/
def addsW : List AddCall := [⟨fsW, "/src/report.txt", "t1"⟩, ⟨fsW, "/src/report.txt", "t2"⟩]

/-- The in-memory state after an `add_file` call, whether it returned or
raised (the state an uncaught exception leaves behind). -/
def add_file_state (copyFails : Bool) (fs : FS) (st : VaultState) (p ts : String) : VaultState :=
  match add_file copyFails fs st p ts with
  | Except.ok (st', _, _) => st'
  | Except.error st' => st'

/-- Whether an `add_file` call returned normally with success `True`. -/
def addSucceeds (fs : FS) (st : VaultState) (p ts : String) : Bool :=
  match add_file false fs st p ts with
  | Except.ok (_, b, _) => b
  | Except.error _ => false

/-- The `(success, message)` outcome an `add_file` call returned, or
`none` when it raised instead of returning. -/
def addOutcome (copyFails : Bool) (fs : FS) (st : VaultState) (p ts : String) :
    Option (Bool × String) :=
  match add_file copyFails fs st p ts with
  | Except.ok (_, b, m) => some (b, m)
  | Except.error _ => none

/-- Whether an `add_file` call raised an uncaught exception. -/
def add_file_raised (copyFails : Bool) (fs : FS) (st : VaultState) (p ts : String) : Bool :=
  match add_file copyFails fs st p ts with
  | Except.ok _ => false
  | Except.error _ => true

/-- A two-version vault holding `report.txt` (contents `"hello"` and
`"hello world"`), current version the second. -/
def entryW : VaultEntry :=
  ⟨"report.txt",
   [⟨1, "t1", 5, "2cf24dba5fb0a30e", "files/report.txt/v1/report.txt"⟩,
    ⟨2, "t2", 11, "b94d27b9934d3e08", "files/report.txt/v2/report.txt"⟩], 1⟩

/-- The vault state holding `entryW`, its two stored payloads, and the
matching persisted catalog. -/
def stW : VaultState :=
  ⟨[("report.txt", entryW)],
   [("files/report.txt/v1/report.txt", strBytes "hello"),
    ("files/report.txt/v2/report.txt", strBytes "hello world")],
   [("report.txt", entryW)]⟩

/-- A filesystem holding an empty readable file. -/
def fsE : FS := [("/src/empty.bin", FSEntry.file [])]

/-- The state `delete_file` leaves behind on success: the catalog entry
removed, every stored payload under `files/<nm>/` removed, and the new
catalog persisted. -/
def deletedState (st : VaultState) (nm : String) : VaultState :=
  ⟨dictDel st.metadata nm,
   st.store.filter (fun q => !(("files/" ++ nm ++ "/").data.isPrefixOf q.1.data)),
   dictDel st.metadata nm⟩

/-- A filesystem holding one existing but unreadable file. -/
def fsU : FS := [("/src/secret.txt", FSEntry.unreadable)]

/-- A filesystem holding one readable file whose name is new to the vault. -/
def fsH : FS := [("/src/new.txt", FSEntry.file (strBytes "hello"))]

/-- A filesystem with `notes.txt` under one directory. -/
def fsX1 : FS := [("/tmp/a/notes.txt", FSEntry.file (strBytes "hello"))]

/-- A filesystem with a different `notes.txt` under another directory. -/
def fsX2 : FS := [("/home/b/notes.txt", FSEntry.file (strBytes "hello world"))]

/-- A JSON document, the granularity at which `json.load` hands data to
the engine. -/
inductive JValue where
  | jnull
  | jbool (b : Bool)
  | jnum (n : Int)
  | jstr (s : String)
  | jarr (elems : List JValue)
  | jobj (fields : List (String × JValue))

/-- `load_metadata` (src/Data_Vault.py lines 19-23): an absent metadata
file gives the empty catalog; a present file is handed to `json.load`,
which returns the parsed document for well-formed JSON (`some v`) and
raises `JSONDecodeError` for anything else (`none`).  The parsed value
is returned with no schema validation; the raised error is
`Except.error` and propagates. -/
def load_metadata (doc : Option (Option JValue)) : Except String JValue :=
  match doc with
  | none => Except.ok (JValue.jobj [])
  | some none => Except.error "json.decoder.JSONDecodeError"
  | some (some v) => Except.ok v

/-- `DataVault.__init__` (src/Data_Vault.py lines 11-17): creates the
vault directories and loads the metadata.  It contains no call to
`save_metadata`, so the document on disk is returned unchanged alongside
the loaded catalog, and a load failure is fatal: the exception
propagates out of initialization. -/
def vault_init (doc : Option (Option JValue)) :
    Except String (JValue × Option (Option JValue)) :=
  match load_metadata doc with
  | Except.error e => Except.error e
  | Except.ok v => Except.ok (v, doc)

/-- Lowercase hexadecimal digit test, for stored fingerprints. -/
def isHexChar (c : Char) : Bool :=
  (decide (48 ≤ c.toNat) && decide (c.toNat ≤ 57)) ||
  (decide (97 ≤ c.toNat) && decide (c.toNat ≤ 102))

/-- Modelled from the spec: the section-6 schema of one version record —
an object with integer `version`, string `timestamp`, integer `size`
(non-negative bytes), 16-hex-character string `hash`, and string `path`.
No code under src/ validates this schema; it exists only in the spec. -/
def versionRecOk (v : JValue) : Bool :=
  match v with
  | JValue.jobj fields =>
    (match alookup fields "version", alookup fields "timestamp", alookup fields "size",
        alookup fields "hash", alookup fields "path" with
     | some (JValue.jnum _), some (JValue.jstr _), some (JValue.jnum size),
       some (JValue.jstr h), some (JValue.jstr _) =>
       decide (0 ≤ size) && decide (h.length = 16) && h.data.all isHexChar
     | _, _, _, _, _ => false)
  | _ => false

/-- Modelled from the spec: the section-6 schema of one catalog entry,
`{ name, versions : [...], current_version : integer index }`. -/
def entryOk (nm : String) (v : JValue) : Bool :=
  match v with
  | JValue.jobj fields =>
    (match alookup fields "name", alookup fields "versions",
        alookup fields "current_version" with
     | some (JValue.jstr n), some (JValue.jarr vs), some (JValue.jnum _) =>
       (n == nm) && vs.all versionRecOk
     | _, _, _ => false)
  | _ => false

/-- Modelled from the spec: the section-6 schema of the whole metadata
document — a structured object mapping each file name to its entry. -/
def catalogSchemaOk (v : JValue) : Bool :=
  match v with
  | JValue.jobj entries => entries.all (fun e => entryOk e.1 e.2)
  | _ => false

/-! ### Theorems -/

@[simp] theorem alookup_nil {β : Type} (k : String) :
    alookup ([] : List (String × β)) k = none := rfl

@[simp] theorem alookup_cons {β : Type} (p : String × β) (rest : List (String × β)) (k : String) :
    alookup (p :: rest) k = if p.1 = k then some p.2 else alookup rest k := rfl

theorem alookup_dictSet_same {β : Type} (m : List (String × β)) (k : String) (v : β) :
    alookup (dictSet m k v) k = some v := by
  induction m with
  | nil => simp [dictSet, alookup]
  | cons p rest ih =>
    by_cases h : p.1 = k <;> simp [dictSet, alookup, h, ih]

theorem alookup_dictSet_other {β : Type} (m : List (String × β)) (k k' : String) (v : β)
    (hne : k' ≠ k) : alookup (dictSet m k v) k' = alookup m k' := by
  have hkk' : ¬ k = k' := fun h => hne h.symm
  induction m with
  | nil => simp [dictSet, alookup, hkk']
  | cons p rest ih =>
    by_cases h : p.1 = k
    · have hp' : ¬ p.1 = k' := by rw [h]; exact hkk'
      simp [dictSet, alookup, h, hkk', hp']
    · by_cases h' : p.1 = k' <;> simp [dictSet, alookup, h, h', hne, ih]

theorem dictSet_keys_of_mem {β : Type} (m : List (String × β)) (k : String) (v : β)
    (h : (alookup m k).isSome) :
    (dictSet m k v).map Prod.fst = m.map Prod.fst := by
  induction m with
  | nil => simp [alookup] at h
  | cons p rest ih =>
    by_cases hp : p.1 = k
    · simp [dictSet, hp]
    · simp [alookup, hp] at h
      simp [dictSet, hp, ih h]

theorem dictSet_of_not_mem {β : Type} (m : List (String × β)) (k : String) (v : β)
    (h : alookup m k = none) : dictSet m k v = m ++ [(k, v)] := by
  induction m with
  | nil => simp [dictSet]
  | cons p rest ih =>
    by_cases hp : p.1 = k
    · simp [alookup, hp] at h
    · simp [alookup, hp] at h
      simp [dictSet, hp, ih h]

theorem dictDel_keys {β : Type} (m : List (String × β)) (k : String) :
    (dictDel m k).map Prod.fst = (m.map Prod.fst).erase k := by
  induction m with
  | nil => simp [dictDel]
  | cons p rest ih =>
    by_cases hp : p.1 = k
    · simp [dictDel, hp, List.erase_cons]
    · simp [dictDel, hp, List.erase_cons, ih]

theorem alookup_eq_none_iff {β : Type} (m : List (String × β)) (k : String) :
    alookup m k = none ↔ k ∉ m.map Prod.fst := by
  induction m with
  | nil => simp [alookup]
  | cons p rest ih =>
    by_cases hp : p.1 = k
    · subst hp
      simp [alookup]
    · simp only [alookup, if_neg hp, ih, List.map_cons, List.mem_cons]
      constructor
      · intro h hmem
        rcases hmem with hh | hh
        · exact hp hh.symm
        · exact h hh
      · intro h hh
        exact h (Or.inr hh)

theorem alookup_dictDel_same {β : Type} (m : List (String × β)) (k : String)
    (hnd : (m.map Prod.fst).Nodup) : alookup (dictDel m k) k = none := by
  induction m with
  | nil => simp [dictDel]
  | cons p rest ih =>
    simp only [List.map_cons, List.nodup_cons] at hnd
    by_cases hp : p.1 = k
    · subst hp
      simp [dictDel, (alookup_eq_none_iff rest p.1).2 hnd.1]
    · simp [dictDel, alookup, hp, ih hnd.2]

theorem alookup_dictDel_other {β : Type} (m : List (String × β)) (k k' : String)
    (hne : k' ≠ k) : alookup (dictDel m k) k' = alookup m k' := by
  have hkk' : ¬ k = k' := fun h => hne h.symm
  induction m with
  | nil => simp [dictDel]
  | cons p rest ih =>
    by_cases hp : p.1 = k
    · have hp' : ¬ p.1 = k' := by rw [hp]; exact hkk'
      simp [dictDel, alookup, hp, hp', hkk']
    · by_cases h' : p.1 = k' <;> simp [dictDel, alookup, hp, h', hne, ih]

theorem chunksGo_join (fuel : Nat) : ∀ l : List Nat, l.length ≤ fuel →
    (chunksGo fuel l).foldl (fun acc c => acc ++ c) [] = l := by
  have key : ∀ (cs : List (List Nat)) (acc : List Nat),
      cs.foldl (fun a c => a ++ c) acc = acc ++ cs.foldl (fun a c => a ++ c) [] := by
    intro cs
    induction cs with
    | nil => simp
    | cons c rest ih =>
      intro acc
      simp only [List.foldl_cons, List.nil_append]
      rw [ih (acc ++ c), ih c, List.append_assoc]
  induction fuel with
  | zero =>
    intro l hl
    have : l = [] := List.eq_nil_of_length_eq_zero (Nat.le_zero.1 hl)
    subst this
    rfl
  | succ n ih =>
    intro l hl
    match l with
    | [] => rfl
    | x :: xs =>
      show ((x :: xs).take 4096 :: chunksGo n ((x :: xs).drop 4096)).foldl
          (fun acc c => acc ++ c) [] = x :: xs
      rw [List.foldl_cons, key, List.nil_append,
        ih ((x :: xs).drop 4096)
          (by simp only [List.length_drop]; omega),
        List.take_append_drop]

theorem chunks4096_join (l : List Nat) :
    (chunks4096 l).foldl (fun acc c => acc ++ c) [] = l :=
  chunksGo_join l.length l (Nat.le_refl _)

theorem chunksGo_bounded (fuel : Nat) : ∀ l : List Nat,
    (chunksGo fuel l).all (fun c => c.length ≤ 4096) = true := by
  induction fuel with
  | zero =>
    intro l
    match l with
    | [] => rfl
    | _ :: _ => rfl
  | succ n ih =>
    intro l
    match l with
    | [] => rfl
    | x :: xs =>
      show ((x :: xs).take 4096 :: chunksGo n ((x :: xs).drop 4096)).all
          (fun c => c.length ≤ 4096) = true
      simp only [List.all_cons, ih, Bool.and_true, decide_eq_true_eq]
      exact List.length_take_le 4096 (x :: xs)

theorem calculate_hash_eq (content : List Nat) :
    calculate_hash content = (sha256hex content).take 16 := by
  unfold calculate_hash
  rw [chunks4096_join]

theorem add_file_ok_present (fs : FS) (st : VaultState) (p ts : String) (B : List Nat)
    (entry : VaultEntry)
    (hsrc : alookup fs p = some (FSEntry.file B))
    (hm : alookup st.metadata (basename p) = some entry) :
    add_file false fs st p ts = Except.ok
      (⟨dictSet st.metadata (basename p) (afterEntry (basename p) entry ts B),
        dictSet st.store (locator (basename p) (entry.versions.length + 1)) B,
        dictSet st.metadata (basename p) (afterEntry (basename p) entry ts B)⟩,
       true, addMsg (basename p) (entry.versions.length + 1)) := by
  simp [add_file, hsrc, hm, afterEntry, addMsg]

theorem add_file_ok_absent (fs : FS) (st : VaultState) (p ts : String) (B : List Nat)
    (hsrc : alookup fs p = some (FSEntry.file B))
    (hm : alookup st.metadata (basename p) = none) :
    add_file false fs st p ts = Except.ok
      (⟨dictSet (dictSet st.metadata (basename p) ⟨basename p, [], 0⟩) (basename p)
          (afterEntry (basename p) ⟨basename p, [], 0⟩ ts B),
        dictSet st.store (locator (basename p) 1) B,
        dictSet (dictSet st.metadata (basename p) ⟨basename p, [], 0⟩) (basename p)
          (afterEntry (basename p) ⟨basename p, [], 0⟩ ts B)⟩,
       true, addMsg (basename p) 1) := by
  simp [add_file, hsrc, hm, afterEntry, addMsg, alookup_dictSet_same]

/-- Observable effect of one successful `add_file` call: the returned
message names version `count + 1`, exactly one record is appended for the
basename of the source path, the current index moves to it, the content
is stored under the new locator, every other catalog key and locator is
untouched, and the catalog is persisted. -/
theorem add_file_step (fs : FS) (st : VaultState) (p ts : String) (B : List Nat)
    (hsrc : alookup fs p = some (FSEntry.file B)) :
    ∃ st', add_file false fs st p ts = Except.ok (st', true,
        addMsg (basename p) ((get_versions st (basename p)).length + 1)) ∧
      get_versions st' (basename p) =
        get_versions st (basename p) ++ [newRecord st (basename p) ts B] ∧
      get_current_version_index st' (basename p) =
        ((get_versions st (basename p)).length : Int) ∧
      (∀ k, k ≠ basename p → alookup st'.metadata k = alookup st.metadata k) ∧
      alookup st'.store (newRecord st (basename p) ts B).path = some B ∧
      (∀ loc, loc ≠ (newRecord st (basename p) ts B).path →
        alookup st'.store loc = alookup st.store loc) ∧
      st'.disk = st'.metadata ∧
      ((alookup st.metadata (basename p)).isSome → get_file_list st' = get_file_list st) ∧
      (alookup st.metadata (basename p) = none →
        get_file_list st' = get_file_list st ++ [basename p]) := by
  cases hm : alookup st.metadata (basename p) with
  | some entry =>
    have hv : get_versions st (basename p) = entry.versions := by
      simp [get_versions, hm]
    refine ⟨⟨dictSet st.metadata (basename p) (afterEntry (basename p) entry ts B),
        dictSet st.store (locator (basename p) (entry.versions.length + 1)) B,
        dictSet st.metadata (basename p) (afterEntry (basename p) entry ts B)⟩,
      ?_, ?_, ?_, ?_, ?_, ?_, ?_, ?_, ?_⟩
    · rw [hv]
      exact add_file_ok_present fs st p ts B entry hsrc hm
    · simp [get_versions, hm, alookup_dictSet_same, afterEntry, newRecord, hv, locator]
    · simp [get_current_version_index, hm, alookup_dictSet_same, afterEntry, hv]
    · intro k hk
      exact alookup_dictSet_other _ _ _ _ hk
    · simp [newRecord, hv, locator, alookup_dictSet_same]
    · intro loc hloc
      apply alookup_dictSet_other
      simpa [newRecord, hv, locator] using hloc
    · rfl
    · intro _
      show (dictSet st.metadata (basename p) (afterEntry (basename p) entry ts B)).map Prod.fst =
        st.metadata.map Prod.fst
      exact dictSet_keys_of_mem _ _ _ (by simp [hm])
    · intro hnone
      simp at hnone
  | none =>
    have hv : get_versions st (basename p) = [] := by
      simp [get_versions, hm]
    refine ⟨⟨dictSet (dictSet st.metadata (basename p) ⟨basename p, [], 0⟩) (basename p)
          (afterEntry (basename p) ⟨basename p, [], 0⟩ ts B),
        dictSet st.store (locator (basename p) 1) B,
        dictSet (dictSet st.metadata (basename p) ⟨basename p, [], 0⟩) (basename p)
          (afterEntry (basename p) ⟨basename p, [], 0⟩ ts B)⟩,
      ?_, ?_, ?_, ?_, ?_, ?_, ?_, ?_, ?_⟩
    · rw [hv]
      exact add_file_ok_absent fs st p ts B hsrc hm
    · simp [get_versions, hm, alookup_dictSet_same, afterEntry, newRecord, hv, locator]
    · simp [get_current_version_index, hm, alookup_dictSet_same, afterEntry, hv]
    · intro k hk
      rw [alookup_dictSet_other _ _ _ _ hk, alookup_dictSet_other _ _ _ _ hk]
    · simp [newRecord, hv, locator, alookup_dictSet_same]
    · intro loc hloc
      apply alookup_dictSet_other
      simpa [newRecord, hv, locator] using hloc
    · rfl
    · intro hsome
      simp at hsome
    · intro _
      show (dictSet (dictSet st.metadata (basename p) ⟨basename p, [], 0⟩) (basename p)
          (afterEntry (basename p) ⟨basename p, [], 0⟩ ts B)).map Prod.fst =
        st.metadata.map Prod.fst ++ [basename p]
      rw [dictSet_keys_of_mem _ _ _ (by simp [alookup_dictSet_same]),
        dictSet_of_not_mem _ _ _ hm]
      simp

theorem runAdds_inv (nm : String) (adds : List AddCall) :
    ∀ st : VaultState,
      (∀ c ∈ adds, (∃ B, alookup c.fs c.path = some (FSEntry.file B)) ∧ basename c.path = nm) →
      ((get_versions (runAdds st adds) nm).map (fun r => r.version) =
        (get_versions st nm).map (fun r => r.version) ++
          List.range' ((get_versions st nm).length + 1) adds.length) ∧
      (∀ k, k < adds.length →
        get_current_version_index (runAdds st (adds.take (k + 1))) nm =
          (((get_versions st nm).length : Int) + k)) := by
  induction adds with
  | nil =>
    intro st _
    refine ⟨by simp [runAdds], ?_⟩
    intro k hk
    exact absurd hk (by simp)
  | cons c rest ih =>
    intro st hsrc
    obtain ⟨⟨B, hB⟩, hbn⟩ := hsrc c (List.mem_cons_self c rest)
    obtain ⟨st1, heq, hvers, hcur, -⟩ := add_file_step c.fs st c.path c.ts B hB
    rw [hbn] at hvers hcur
    have hrest : ∀ c' ∈ rest,
        (∃ B', alookup c'.fs c'.path = some (FSEntry.file B')) ∧ basename c'.path = nm :=
      fun c' hc' => hsrc c' (List.mem_cons_of_mem c hc')
    have hrun : runAdds st (c :: rest) = runAdds st1 rest := by
      simp [runAdds, heq]
    have hlen1 : (get_versions st1 nm).length = (get_versions st nm).length + 1 := by
      rw [hvers]; simp
    have hmap1 : (get_versions st1 nm).map (fun r => r.version) =
        (get_versions st nm).map (fun r => r.version) ++
          [(get_versions st nm).length + 1] := by
      rw [hvers]
      simp [newRecord]
    constructor
    · rw [hrun, (ih st1 hrest).1, hmap1, hlen1]
      rw [List.append_assoc, List.length_cons, List.range'_succ, List.singleton_append]
    · intro k hk
      match k with
      | 0 =>
        have : runAdds st ((c :: rest).take 1) = st1 := by
          simp [runAdds, heq]
        rw [this, hcur]
        simp
      | j + 1 =>
        have htake : (c :: rest).take (j + 2) = c :: rest.take (j + 1) := rfl
        have : runAdds st ((c :: rest).take (j + 2)) = runAdds st1 (rest.take (j + 1)) := by
          rw [htake]
          simp [runAdds, heq]
        rw [this, (ih st1 hrest).2 j (by simpa using hk), hlen1]
        push_cast
        ring

/-! ## Claims -/

/-- C1: starting from a state where `nm` is unknown, any sequence of
successful `add_file` calls whose sources all have basename `nm` leaves
`get_versions nm` with version numbers exactly 1..n in order; after the
(k+1)-st call the current version index equals (k+1)-1, the index of the
newly appended record; and every such call indeed succeeds (returns
`True`). -/
theorem c1_addFile_version_numbering (st0 : VaultState) (nm : String) (adds : List AddCall)
    (h0 : alookup st0.metadata nm = none)
    (hsrc : ∀ c ∈ adds,
      (∃ B, alookup c.fs c.path = some (FSEntry.file B)) ∧ basename c.path = nm) :
    ((get_versions (runAdds st0 adds) nm).map (fun r => r.version) =
      List.range' 1 adds.length)
    ∧ (∀ k, k < adds.length →
        get_current_version_index (runAdds st0 (adds.take (k + 1))) nm = ((k : Int) + 1) - 1)
    ∧ (∀ c ∈ adds, ∀ st : VaultState, ∃ r,
        add_file false c.fs st c.path c.ts = Except.ok r ∧ r.2.1 = true) := by
  have h0v : get_versions st0 nm = [] := by simp [get_versions, h0]
  obtain ⟨hmap, hcur⟩ := runAdds_inv nm adds st0 hsrc
  refine ⟨?_, ?_, ?_⟩
  · rw [hmap, h0v]
    simp
  · intro k hk
    rw [hcur k hk, h0v]
    simp
  · intro c hc st
    obtain ⟨⟨B, hB⟩, -⟩ := hsrc c hc
    obtain ⟨st', heq, -⟩ := add_file_step c.fs st c.path c.ts B hB
    exact ⟨_, heq, rfl⟩

/-- Witness for C1: two concrete adds of `report.txt` into the empty
vault give version numbers [1, 2] and current index 1. -/
theorem c1_witness :
    alookup emptyVault.metadata "report.txt" = none ∧
    (get_versions (runAdds emptyVault addsW) "report.txt").map (fun r => r.version) =
      List.range' 1 2 ∧
    get_current_version_index (runAdds emptyVault (addsW.take 2)) "report.txt" =
      ((1 : Int) + 1) - 1 := by
  have hsrc : ∀ c ∈ addsW,
      (∃ B, alookup c.fs c.path = some (FSEntry.file B)) ∧ basename c.path = "report.txt" := by
    intro c hc
    rcases List.mem_cons.mp hc with h | h
    · subst h
      exact ⟨⟨strBytes "hello", rfl⟩, by decide⟩
    · rcases List.mem_cons.mp h with h2 | h2
      · subst h2
        exact ⟨⟨strBytes "hello", rfl⟩, by decide⟩
      · cases h2
  have main := c1_addFile_version_numbering emptyVault "report.txt" addsW rfl hsrc
  exact ⟨rfl, main.1, main.2.1 1 (by decide)⟩

/-- C2: rolling back a known file to a valid index returns success,
moves only the current-version pointer to that index, and leaves the
version list, the stored content, the file list and every other catalog
entry unchanged; the updated catalog is persisted. -/
theorem c2_rollback_valid_index (st : VaultState) (nm : String) (entry : VaultEntry) (i : Int)
    (he : alookup st.metadata nm = some entry)
    (h0 : 0 ≤ i) (hlt : i < (entry.versions.length : Int)) :
    rollback_version st nm i =
      (⟨dictSet st.metadata nm { entry with current_version := i }, st.store,
        dictSet st.metadata nm { entry with current_version := i }⟩, true,
       "Rolled back to version " ++ toString (i + 1)) ∧
    get_current_version_index (rollback_version st nm i).1 nm = i ∧
    get_versions (rollback_version st nm i).1 nm = get_versions st nm ∧
    (rollback_version st nm i).1.store = st.store ∧
    get_file_list (rollback_version st nm i).1 = get_file_list st ∧
    (∀ k, k ≠ nm →
      alookup (rollback_version st nm i).1.metadata k = alookup st.metadata k) ∧
    (rollback_version st nm i).1.disk = (rollback_version st nm i).1.metadata := by
  have hcond : ¬ (i < 0 ∨ (entry.versions.length : Int) ≤ i) := by omega
  have heq : rollback_version st nm i =
      (⟨dictSet st.metadata nm { entry with current_version := i }, st.store,
        dictSet st.metadata nm { entry with current_version := i }⟩, true,
       "Rolled back to version " ++ toString (i + 1)) := by
    simp [rollback_version, he, hcond]
  refine ⟨heq, ?_, ?_, ?_, ?_, ?_, ?_⟩
  · rw [heq]
    simp [get_current_version_index, alookup_dictSet_same]
  · rw [heq]
    simp [get_versions, he, alookup_dictSet_same]
  · rw [heq]
  · rw [heq]
    show (dictSet st.metadata nm { entry with current_version := i }).map Prod.fst =
      st.metadata.map Prod.fst
    exact dictSet_keys_of_mem _ _ _ (by simp [he])
  · intro k hk
    rw [heq]
    exact alookup_dictSet_other _ _ _ _ hk
  · rw [heq]

/-- Witness for C2: rolling `report.txt` back to index 0 in a concrete
two-version vault. -/
theorem c2_witness :
    alookup stW.metadata "report.txt" = some entryW ∧
    get_current_version_index (rollback_version stW "report.txt" 0).1 "report.txt" = 0 ∧
    get_versions (rollback_version stW "report.txt" 0).1 "report.txt" =
      get_versions stW "report.txt" ∧
    (rollback_version stW "report.txt" 0).1.store = stW.store ∧
    get_file_list (rollback_version stW "report.txt" 0).1 = get_file_list stW := by
  have main := c2_rollback_valid_index stW "report.txt" entryW 0 rfl (by decide) (by decide)
  exact ⟨rfl, main.2.1, main.2.2.1, main.2.2.2.1, main.2.2.2.2.1⟩

/-- C3: rollback on an unknown file name fails with the not-found
outcome, and rollback with an out-of-range index (negative, or at least
the version count) fails with the invalid-index outcome; in both cases
the returned state is exactly the input state (catalog, stored content
and persisted document all unchanged). -/
theorem c3_rollback_failure_cases (st : VaultState) (nm : String) (i : Int) :
    (alookup st.metadata nm = none →
      rollback_version st nm i = (st, false, "File not found")) ∧
    (∀ entry, alookup st.metadata nm = some entry →
      (i < 0 ∨ (entry.versions.length : Int) ≤ i) →
      rollback_version st nm i = (st, false, "Invalid version index")) := by
  constructor
  · intro h
    simp [rollback_version, h]
  · intro entry he hbad
    simp [rollback_version, he, hbad]

/-- Witness for C3: an unknown name and an out-of-range index on the
concrete two-version vault. -/
theorem c3_witness :
    rollback_version stW "ghost.txt" 0 = (stW, false, "File not found") ∧
    rollback_version stW "report.txt" 2 = (stW, false, "Invalid version index") ∧
    rollback_version stW "report.txt" (-1) = (stW, false, "Invalid version index") :=
  ⟨(c3_rollback_failure_cases stW "ghost.txt" 0).1 rfl,
   (c3_rollback_failure_cases stW "report.txt" 2).2 entryW rfl (Or.inr (by decide)),
   (c3_rollback_failure_cases stW "report.txt" (-1)).2 entryW rfl (Or.inl (by decide))⟩

/-- C4: for any byte sequence `B` (the empty one included), a successful
`add_file` of a source containing `B` followed by `export_file` of that
name writes to the destination exactly the bytes `B`; the current version
record after the add is the newly appended one, its stored fingerprint is
`calculate_hash B`, and re-hashing the exported bytes reproduces it —
which is the first 16 hex characters of the SHA-256 digest of `B`. -/
theorem c4_roundtrip (fs : FS) (st : VaultState) (p ts dest : String) (B : List Nat)
    (hsrc : alookup fs p = some (FSEntry.file B)) :
    addSucceeds fs st p ts = true ∧
    export_file (add_file_state false fs st p ts) (basename p) dest =
      Except.ok (true, "File exported to " ++ dest, some B) ∧
    pyIndex (get_versions (add_file_state false fs st p ts) (basename p))
        (get_current_version_index (add_file_state false fs st p ts) (basename p)) =
      some (newRecord st (basename p) ts B) ∧
    (newRecord st (basename p) ts B).hash = calculate_hash B ∧
    calculate_hash B = (sha256hex B).take 16 := by
  obtain ⟨st', heq, hvers, hcur, -, hok, -, -⟩ :=
    add_file_step fs st p ts B hsrc
  have hstate : add_file_state false fs st p ts = st' := by
    simp [add_file_state, heq]
  have hsucc : addSucceeds fs st p ts = true := by
    simp [addSucceeds, heq]
  obtain ⟨e', he', hev⟩ : ∃ e', alookup st'.metadata (basename p) = some e' ∧
      e'.versions = get_versions st (basename p) ++ [newRecord st (basename p) ts B] := by
    cases hm' : alookup st'.metadata (basename p) with
    | none =>
      simp only [get_versions, hm'] at hvers
      exact absurd hvers.symm (by simp)
    | some e' =>
      simp only [get_versions, hm'] at hvers
      exact ⟨e', rfl, hvers⟩
  have hecur : e'.current_version = ((get_versions st (basename p)).length : Int) := by
    simp only [get_current_version_index, he'] at hcur
    exact hcur
  have hpy : pyIndex e'.versions e'.current_version =
      some (newRecord st (basename p) ts B) := by
    rw [hecur, hev]
    simp [pyIndex]
  refine ⟨hsucc, ?_, ?_, by simp [newRecord], calculate_hash_eq B⟩
  · rw [hstate]
    simp [export_file, he', hpy, hok]
  · rw [hstate]
    simp only [get_versions, get_current_version_index, he']
    exact hpy

theorem alookup_filter_prefixed (m : List (String × List Nat)) (pfx loc : String)
    (h : pfx.data.isPrefixOf loc.data = true) :
    alookup (m.filter (fun q => !(pfx.data.isPrefixOf q.1.data))) loc = none := by
  induction m with
  | nil => rfl
  | cons q rest ih =>
    by_cases hq : pfx.data.isPrefixOf q.1.data = true
    · simp [List.filter_cons, hq, ih]
    · have hne : q.1 ≠ loc := by
        intro hl
        rw [hl] at hq
        exact hq h
      simp [List.filter_cons, hq, alookup, hne, ih]

/-- Witness for C4: adding an empty file to the empty vault and exporting
it round-trips the empty byte sequence and its fingerprint. -/
theorem c4_witness :
    alookup fsE "/src/empty.bin" = some (FSEntry.file []) ∧
    addSucceeds fsE emptyVault "/src/empty.bin" "t0" = true ∧
    export_file (add_file_state false fsE emptyVault "/src/empty.bin" "t0") "empty.bin"
        "/tmp/out.bin" =
      Except.ok (true, "File exported to /tmp/out.bin", some []) ∧
    (newRecord emptyVault "empty.bin" "t0" []).hash = calculate_hash [] ∧
    calculate_hash [] = (sha256hex []).take 16 := by
  have main := c4_roundtrip fsE emptyVault "/src/empty.bin" "t0" "/tmp/out.bin" [] rfl
  have hb : basename "/src/empty.bin" = "empty.bin" := by decide
  refine ⟨rfl, main.1, ?_, ?_, main.2.2.2.2⟩
  · have h2 := main.2.1
    rw [hb] at h2
    exact h2
  · have h4 := main.2.2.2.1
    rw [hb] at h4
    exact h4

/-- C5: deleting a known file succeeds, removes the name from the file
list, makes every payload stored under the file subtree unreadable, and
makes a subsequent export fail not-found; deleting an unknown name fails
not-found and changes nothing; and re-adding the same name afterwards
succeeds with the version numbering restarted at exactly [1]. -/
theorem c5_deleteFile (st : VaultState) (nm : String) :
    (∀ entry, (st.metadata.map Prod.fst).Nodup →
      alookup st.metadata nm = some entry →
      delete_file st nm =
        (deletedState st nm, true, "File \x27" ++ nm ++ "\x27 deleted") ∧
      get_file_list (deletedState st nm) = (get_file_list st).erase nm ∧
      nm ∉ get_file_list (deletedState st nm) ∧
      (∀ loc, ("files/" ++ nm ++ "/").data.isPrefixOf loc.data = true →
        alookup (deletedState st nm).store loc = none) ∧
      (∀ d, export_file (deletedState st nm) nm d =
        Except.ok (false, "File not found", none)) ∧
      (∀ fs2 p2 ts2 B2, alookup fs2 p2 = some (FSEntry.file B2) → basename p2 = nm →
        addSucceeds fs2 (deletedState st nm) p2 ts2 = true ∧
        (get_versions (add_file_state false fs2 (deletedState st nm) p2 ts2) nm).map
          (fun r => r.version) = [1])) ∧
    (alookup st.metadata nm = none →
      delete_file st nm = (st, false, "File not found")) := by
  constructor
  · intro entry hnd he
    have hnone : alookup (dictDel st.metadata nm) nm = none :=
      alookup_dictDel_same st.metadata nm hnd
    have hDv : get_versions (deletedState st nm) nm = [] := by
      simp [get_versions, deletedState, hnone]
    refine ⟨?_, ?_, ?_, ?_, ?_, ?_⟩
    · simp [delete_file, he, deletedState]
    · exact dictDel_keys st.metadata nm
    · exact (alookup_eq_none_iff _ _).1 hnone
    · intro loc hl
      exact alookup_filter_prefixed st.store _ loc hl
    · intro d
      simp [export_file, deletedState, hnone]
    · intro fs2 p2 ts2 B2 h2 hb2
      obtain ⟨st2, heq2, hvers2, -, -, -, -, -, -⟩ :=
        add_file_step fs2 (deletedState st nm) p2 ts2 B2 h2
      rw [hb2] at heq2 hvers2
      constructor
      · simp [addSucceeds, heq2]
      · have hst2 : add_file_state false fs2 (deletedState st nm) p2 ts2 = st2 := by
          simp [add_file_state, heq2]
        rw [hst2, hvers2, hDv]
        simp [newRecord, hDv]
  · intro h
    simp [delete_file, h]

/-- Witness for C5: deleting `report.txt` from the concrete two-version
vault, then re-adding it. -/
theorem c5_witness :
    (stW.metadata.map Prod.fst).Nodup ∧
    alookup stW.metadata "report.txt" = some entryW ∧
    delete_file stW "report.txt" =
      (deletedState stW "report.txt", true, "File \x27report.txt\x27 deleted") ∧
    get_file_list (deletedState stW "report.txt") = (get_file_list stW).erase "report.txt" ∧
    alookup (deletedState stW "report.txt").store "files/report.txt/v1/report.txt" = none ∧
    export_file (deletedState stW "report.txt") "report.txt" "/tmp/out.txt" =
      Except.ok (false, "File not found", none) ∧
    (get_versions (add_file_state false fsW (deletedState stW "report.txt")
        "/src/report.txt" "t9") "report.txt").map (fun r => r.version) = [1] ∧
    delete_file (deletedState stW "report.txt") "report.txt" =
      (deletedState stW "report.txt", false, "File not found") := by
  have main := (c5_deleteFile stW "report.txt").1 entryW (by decide) rfl
  refine ⟨by decide, rfl, main.1, main.2.1, ?_, main.2.2.2.2.1 "/tmp/out.txt", ?_, ?_⟩
  · exact main.2.2.2.1 "files/report.txt/v1/report.txt" (by decide)
  · exact (main.2.2.2.2.2 fsW "/src/report.txt" "t9" (strBytes "hello") rfl (by decide)).2
  · exact (c5_deleteFile (deletedState stW "report.txt") "report.txt").2 (by decide)

/-- Counterexample for C6: `/src/secret.txt` exists but is unreadable, so
it "does not reference an existing readable file"; the claim says
`add_file` must then fail NotFound, but the call raises out of
`calculate_hash` instead of returning any failure outcome. -/
theorem c6_counterexample :
    add_file false fsU emptyVault "/src/secret.txt" "t0" = Except.error emptyVault ∧
    ¬ addOutcome false fsU emptyVault "/src/secret.txt" "t0" =
        some (false, "File does not exist") :=
  ⟨rfl, by decide⟩

/-- C6 (amended): `add_file` returns the NotFound failure outcome exactly
when the source path does not exist, leaving the state untouched; an
existing but unreadable source instead raises a propagating fault before
any catalog mutation, also leaving the state untouched. -/
theorem c6_add_notfound_amended (fs : FS) (st : VaultState) (p ts : String) :
    (alookup fs p = none →
      add_file false fs st p ts = Except.ok (st, false, "File does not exist")) ∧
    (alookup fs p = some FSEntry.unreadable →
      add_file false fs st p ts = Except.error st) := by
  constructor <;> intro h <;> simp [add_file, h]

/-- Witness for C6: a missing path returns the NotFound outcome with the
vault unchanged; the unreadable file raises with the vault unchanged. -/
theorem c6_witness :
    add_file false fsU emptyVault "/nope/missing.txt" "t0" =
      Except.ok (emptyVault, false, "File does not exist") ∧
    add_file false fsU emptyVault "/src/secret.txt" "t0" = Except.error emptyVault :=
  ⟨(c6_add_notfound_amended fsU emptyVault "/nope/missing.txt" "t0").1 rfl,
   (c6_add_notfound_amended fsU emptyVault "/src/secret.txt" "t0").2 rfl⟩

/-- Counterexample for C7: when the content copy faults while adding a
previously-unseen name, the aborted call leaves a freshly created empty
`VaultEntry` in the in-memory catalog, so the catalog is not "exactly as
it was before the call". -/
theorem c7_counterexample :
    add_file true fsH emptyVault "/src/new.txt" "t0" =
      Except.error ⟨[("new.txt", ⟨"new.txt", [], 0⟩)], [], []⟩ ∧
    ¬ ([("new.txt", (⟨"new.txt", [], 0⟩ : VaultEntry))] =
        emptyVault.metadata) :=
  ⟨rfl, by decide⟩

/-- C7 (amended): a copy fault aborts `add_file` with no version record
appended for any name, no stored content written, and no catalog
persisted; for an already-known name the in-memory catalog is exactly as
before, but for a previously-unseen name an empty `VaultEntry`
(`versions = []`, `current_version = 0`) is left in the in-memory
catalog. -/
theorem c7_copy_fault_amended (fs : FS) (st : VaultState) (p ts : String) (B : List Nat)
    (hsrc : alookup fs p = some (FSEntry.file B)) :
    add_file_raised true fs st p ts = true ∧
    (∀ k, get_versions (add_file_state true fs st p ts) k = get_versions st k) ∧
    (add_file_state true fs st p ts).store = st.store ∧
    (add_file_state true fs st p ts).disk = st.disk ∧
    ((alookup st.metadata (basename p)).isSome →
      add_file_state true fs st p ts = st) ∧
    (alookup st.metadata (basename p) = none →
      (add_file_state true fs st p ts).metadata =
        st.metadata ++ [(basename p, ⟨basename p, [], 0⟩)]) := by
  cases hm : alookup st.metadata (basename p) with
  | some entry =>
    have heq : add_file true fs st p ts = Except.error st := by
      simp [add_file, hsrc, hm]
    have hstate : add_file_state true fs st p ts = st := by
      simp [add_file_state, heq]
    refine ⟨by simp [add_file_raised, heq], ?_, by rw [hstate], by rw [hstate],
      fun _ => hstate, ?_⟩
    · intro k
      rw [hstate]
    · intro hnone
      cases hnone
  | none =>
    have heq : add_file true fs st p ts =
        Except.error ⟨dictSet st.metadata (basename p) ⟨basename p, [], 0⟩,
          st.store, st.disk⟩ := by
      simp [add_file, hsrc, hm]
    have hstate : add_file_state true fs st p ts =
        ⟨dictSet st.metadata (basename p) ⟨basename p, [], 0⟩, st.store, st.disk⟩ := by
      simp [add_file_state, heq]
    refine ⟨by simp [add_file_raised, heq], ?_, by rw [hstate], by rw [hstate], ?_, ?_⟩
    · intro k
      by_cases hk : k = basename p
      · subst hk
        rw [hstate]
        simp [get_versions, alookup_dictSet_same, hm]
      · rw [hstate]
        simp only [get_versions]
        rw [alookup_dictSet_other _ _ _ _ hk]
    · intro hsome
      simp at hsome
    · intro _
      rw [hstate]
      exact dictSet_of_not_mem st.metadata (basename p) ⟨basename p, [], 0⟩ hm

/-- Witness for C7 (amended): the faulting add of `/src/new.txt` to the
empty vault raises, appends no version record, writes no content,
persists nothing, and leaves the empty entry for the new name. -/
theorem c7_witness :
    add_file_raised true fsH emptyVault "/src/new.txt" "t0" = true ∧
    get_versions (add_file_state true fsH emptyVault "/src/new.txt" "t0") "new.txt" =
      get_versions emptyVault "new.txt" ∧
    (add_file_state true fsH emptyVault "/src/new.txt" "t0").store = emptyVault.store ∧
    (add_file_state true fsH emptyVault "/src/new.txt" "t0").disk = emptyVault.disk ∧
    (add_file_state true fsH emptyVault "/src/new.txt" "t0").metadata =
      emptyVault.metadata ++ [("new.txt", ⟨"new.txt", [], 0⟩)] := by
  have main := c7_copy_fault_amended fsH emptyVault "/src/new.txt" "t0" (strBytes "hello") rfl
  have hb : basename "/src/new.txt" = "new.txt" := by decide
  rw [hb] at main
  exact ⟨main.1, main.2.1 "new.txt", main.2.2.1, main.2.2.2.1, main.2.2.2.2.2 rfl⟩

/-- C10 (implicit): the catalog key a successful `add_file` records under
is the basename of the source path — the call succeeds, the basename
gains exactly one version, every other key is untouched, a previously
unseen basename is appended to the file list, and a second add whose
source path differs but shares the basename appends to the same entry
(two versions, no new file-list entry). -/
theorem c10_basename_keying (fs : FS) (st : VaultState) (p ts : String) (B : List Nat)
    (hsrc : alookup fs p = some (FSEntry.file B)) :
    addSucceeds fs st p ts = true ∧
    (get_versions (add_file_state false fs st p ts) (basename p)).length =
      (get_versions st (basename p)).length + 1 ∧
    (∀ k, k ≠ basename p →
      alookup (add_file_state false fs st p ts).metadata k = alookup st.metadata k) ∧
    (alookup st.metadata (basename p) = none →
      get_file_list (add_file_state false fs st p ts) = get_file_list st ++ [basename p]) ∧
    (∀ fs2 p2 ts2 B2, alookup fs2 p2 = some (FSEntry.file B2) →
      basename p2 = basename p →
      addSucceeds fs2 (add_file_state false fs st p ts) p2 ts2 = true ∧
      (get_versions (add_file_state false fs2 (add_file_state false fs st p ts) p2 ts2)
          (basename p)).length = (get_versions st (basename p)).length + 2 ∧
      get_file_list (add_file_state false fs2 (add_file_state false fs st p ts) p2 ts2) =
        get_file_list (add_file_state false fs st p ts)) := by
  obtain ⟨st', heq, hvers, -, hother, -, -, -, -, habs⟩ := add_file_step fs st p ts B hsrc
  have hstate : add_file_state false fs st p ts = st' := by
    simp [add_file_state, heq]
  have hsucc : addSucceeds fs st p ts = true := by
    simp [addSucceeds, heq]
  have hlen : (get_versions st' (basename p)).length =
      (get_versions st (basename p)).length + 1 := by
    rw [hvers]
    simp
  have hpres : (alookup st'.metadata (basename p)).isSome := by
    cases hm' : alookup st'.metadata (basename p) with
    | none =>
      simp only [get_versions, hm'] at hvers
      exact absurd hvers.symm (by simp)
    | some e => simp
  refine ⟨hsucc, by rw [hstate]; exact hlen, ?_, ?_, ?_⟩
  · intro k hk
    rw [hstate]
    exact hother k hk
  · intro hnone
    rw [hstate]
    exact habs hnone
  · intro fs2 p2 ts2 B2 h2 hb2
    obtain ⟨st2, heq2, hvers2, -, -, -, -, -, hsome2, -⟩ := add_file_step fs2 st' p2 ts2 B2 h2
    rw [hb2] at heq2 hvers2 hsome2
    have hstate2 : add_file_state false fs2 st' p2 ts2 = st2 := by
      simp [add_file_state, heq2]
    refine ⟨by rw [hstate]; simp [addSucceeds, heq2], ?_, ?_⟩
    · rw [hstate, hstate2, hvers2]
      simp only [List.length_append, List.length_singleton, hlen]
    · rw [hstate, hstate2]
      exact hsome2 hpres

/-- Witness for C10: two adds from different directories sharing the
basename `notes.txt` give that one entry two versions and no second
file-list entry. -/
theorem c10_witness :
    basename "/tmp/a/notes.txt" = "notes.txt" ∧
    basename "/home/b/notes.txt" = "notes.txt" ∧
    addSucceeds fsX1 emptyVault "/tmp/a/notes.txt" "t1" = true ∧
    addSucceeds fsX2 (add_file_state false fsX1 emptyVault "/tmp/a/notes.txt" "t1")
      "/home/b/notes.txt" "t2" = true ∧
    (get_versions (add_file_state false fsX2
        (add_file_state false fsX1 emptyVault "/tmp/a/notes.txt" "t1")
        "/home/b/notes.txt" "t2") "notes.txt").length = 2 ∧
    get_file_list (add_file_state false fsX2
        (add_file_state false fsX1 emptyVault "/tmp/a/notes.txt" "t1")
        "/home/b/notes.txt" "t2") =
      get_file_list (add_file_state false fsX1 emptyVault "/tmp/a/notes.txt" "t1") := by
  have main := c10_basename_keying fsX1 emptyVault "/tmp/a/notes.txt" "t1" (strBytes "hello") rfl
  have hb1 : basename "/tmp/a/notes.txt" = "notes.txt" := by decide
  have hb2 : basename "/home/b/notes.txt" = "notes.txt" := by decide
  rw [hb1] at main
  have pair := main.2.2.2.2 fsX2 "/home/b/notes.txt" "t2" (strBytes "hello world") rfl hb2
  refine ⟨hb1, hb2, main.1, pair.1, ?_, pair.2.2⟩
  have h2 := pair.2.1
  simpa [get_versions, emptyVault] using h2

/-- Counterexample for C8: the document `[]` is well-formed JSON but does
not satisfy the section-6 schema (it is not even an object); the claim
says load must then fail with CorruptMetadata, but `load_metadata`
accepts it without any schema check. -/
theorem c8_counterexample :
    load_metadata (some (some (JValue.jarr []))) = Except.ok (JValue.jarr []) ∧
    catalogSchemaOk (JValue.jarr []) = false :=
  ⟨rfl, rfl⟩

/-- C8 (amended): `load_metadata` returns the empty catalog when no
document is present (and that empty catalog satisfies the schema); when
the document exists but is not well-formed JSON, the decode error is
raised and initialization fails with it; any well-formed JSON document
is returned as-is, with no schema validation; and initialization never
writes, so a document it cannot parse is never discarded or
overwritten. -/
theorem c8_load_corrupt_metadata (v : JValue) (doc : Option (Option JValue)) :
    load_metadata none = Except.ok (JValue.jobj []) ∧
    catalogSchemaOk (JValue.jobj []) = true ∧
    load_metadata (some none) = Except.error "json.decoder.JSONDecodeError" ∧
    vault_init (some none) = Except.error "json.decoder.JSONDecodeError" ∧
    load_metadata (some (some v)) = Except.ok v ∧
    vault_init doc = Except.map (fun w => (w, doc)) (load_metadata doc) := by
  refine ⟨rfl, rfl, rfl, rfl, rfl, ?_⟩
  cases doc with
  | none => rfl
  | some o =>
    cases o with
    | none => rfl
    | some v2 => rfl

/-- C9: the fingerprint is exactly the first 16 hex characters of the
SHA-256 digest of the whole byte stream; the stream is consumed in
chunks of at most 4096 bytes whose concatenation is the whole file; and
for content `"hello"` the fingerprint equals the first 16 hex characters
of the digest of `"hello"`. -/
theorem c9_fingerprint (B : List Nat) :
    calculate_hash B = (sha256hex B).take 16 ∧
    (chunks4096 B).all (fun c => c.length ≤ 4096) = true ∧
    (chunks4096 B).foldl (fun acc c => acc ++ c) [] = B ∧
    sha256hex (strBytes "hello") =
      "2cf24dba5fb0a30e26e83b2ac5b9e29e1b161e5c1fa7425e73043362938b9824" ∧
    calculate_hash (strBytes "hello") = "2cf24dba5fb0a30e" ∧
    calculate_hash (strBytes "hello") = (sha256hex (strBytes "hello")).take 16 :=
  ⟨calculate_hash_eq B, chunksGo_bounded B.length B, chunks4096_join B,
   by decide, by decide, calculate_hash_eq (strBytes "hello")⟩

end DataVault
